import Mathlib

/-!
Verification of the exploration PDF routines of `explore/exploration.h`
(vowpal_wabbit).  The four operations — `generate_epsilon_greedy`,
`generate_softmax`, `generate_bag`, `enforce_minimum_probability` — are
embedded over `ℚ` (exact arithmetic).  Iterator ranges become Lean lists,
so an inverted range (`last < first`) is not representable and the
`E_EXPLORATION_BAD_RANGE` branches are unreachable in the model; the
remaining control flow is translated line by line from the header.
The C `expf` used by softmax is abstracted as an explicit function
parameter `E`; theorems assume of `E` only what they need (positivity,
monotonicity), and concrete evaluations instantiate `E` with a
computable strictly monotone positive surrogate.
-/

/-- Status code `S_EXPLORATION_OK` (0) from exploration.h. -/
def S_EXPLORATION_OK : ℕ := 0

/-- Status code `E_EXPLORATION_BAD_RANGE` (1) from exploration.h. -/
def E_EXPLORATION_BAD_RANGE : ℕ := 1

/-- Status code `E_EXPLORATION_EMPTY_PDF` (2) from exploration.h. -/
def E_EXPLORATION_EMPTY_PDF : ℕ := 2

/-- The eligibility test `prob > 0 || (prob == 0 && update_zero_elements)`
used in `enforce_minimum_probability`. -/
def eligibleB (update_zero_elements : Bool) (p : ℚ) : Bool :=
  decide (0 < p) || (decide (p = 0) && update_zero_elements)

/-- The first-pass condition of `enforce_minimum_probability`:
`(prob > 0 || (prob == 0 && update_zero_elements)) && prob <= min_prob`
(with `min_prob` already divided by the number of actions). -/
def touchedB (update_zero_elements : Bool) (mp p : ℚ) : Bool :=
  eligibleB update_zero_elements p && decide (p ≤ mp)

/-- Result of the first pass of `enforce_minimum_probability`: every
entry satisfying the touch condition is raised to the floor `mp`. -/
def pass1_list (u : Bool) (mp : ℚ) (pdf : List ℚ) : List ℚ :=
  pdf.map (fun p => if touchedB u mp p then mp else p)

/-- `num_actions_touched` of `enforce_minimum_probability`. -/
def touched_count (u : Bool) (mp : ℚ) (pdf : List ℚ) : ℕ :=
  pdf.countP (touchedB u mp)

/-- `touched_mass` accumulated by the first pass: the code adds the
(already rescaled) floor `mp` once per touched entry, so the total is
`mp * touched_count`. -/
def touched_mass (u : Bool) (mp : ℚ) (pdf : List ℚ) : ℚ :=
  mp * (touched_count u mp pdf : ℚ)

/-- `untouched_mass` accumulated by the first pass: the sum of the
entries that were not touched. -/
def untouched_mass (u : Bool) (mp : ℚ) (pdf : List ℚ) : ℚ :=
  (pdf.map (fun p => if touchedB u mp p then 0 else p)).sum

/-- Shallow embedding of `enforce_minimum_probability` from
exploration.h.  The `pdf_last < pdf_first` check cannot fire in the list
model.  `min_prob > 0.999` triggers the uniform-exploration path; the
general path raises eligible below-floor entries to `min_prob / N` and
then either re-floors (when `touched_mass > 0.999`) or rescales the
entries strictly above the floor by `(1 - touched_mass) / untouched_mass`. -/
def enforce_minimum_probability (min_prob : ℚ) (update_zero_elements : Bool)
    (pdf : List ℚ) : ℕ × List ℚ :=
  if pdf.isEmpty then (E_EXPLORATION_EMPTY_PDF, pdf)
  else
    let num_actions : ℕ := pdf.length
    if min_prob > 999/1000 then
      let support_size : ℕ :=
        if update_zero_elements then num_actions
        else num_actions - pdf.countP (fun p => decide (p = 0))
      (S_EXPLORATION_OK,
        pdf.map (fun p =>
          if update_zero_elements || decide (0 < p) then 1 / (support_size : ℚ) else p))
    else
      let mp := min_prob / (num_actions : ℚ)
      let t := touched_mass update_zero_elements mp pdf
      let un := untouched_mass update_zero_elements mp pdf
      let k := touched_count update_zero_elements mp pdf
      let l1 := pass1_list update_zero_elements mp pdf
      if 0 < t then
        if t > 999/1000 then
          let mp2 := (1 - un) / (k : ℚ)
          (S_EXPLORATION_OK,
            l1.map (fun p => if touchedB update_zero_elements mp2 p then mp2 else p))
        else
          let ratio := (1 - t) / un
          (S_EXPLORATION_OK,
            l1.map (fun p => if mp < p then p * ratio else p))
      else (S_EXPLORATION_OK, l1)

/-- Shallow embedding of `generate_epsilon_greedy` from exploration.h:
every entry becomes `epsilon / N`, then `1 - epsilon` is added at
`top_action`, clamped to `N - 1` when out of range. -/
def generate_epsilon_greedy (epsilon : ℚ) (top_action : ℕ) (pdf : List ℚ) :
    ℕ × List ℚ :=
  if pdf.isEmpty then (E_EXPLORATION_EMPTY_PDF, pdf)
  else
    let num_actions : ℕ := pdf.length
    let top := if top_action ≥ num_actions then num_actions - 1 else top_action
    let prob := epsilon / (num_actions : ℚ)
    (S_EXPLORATION_OK,
      (List.replicate num_actions prob).set top (prob + (1 - epsilon)))

/-- Lockstep loop of `generate_bag`'s positive-total path: positions in
the overlap get `votes[i] / total`, the remaining pdf tail keeps its
prior contents. -/
def bag_fill (votes : List ℕ) (pdf : List ℚ) (total : ℕ) : List ℚ :=
  match votes, pdf with
  | v :: vs, _ :: ps => ((v : ℚ) / (total : ℚ)) :: bag_fill vs ps total
  | _, ps => ps

/-- Shallow embedding of `generate_bag` from exploration.h: sums the
votes; a zero total falls back to mass 1 on position 0 and 0 elsewhere,
otherwise each overlap position gets its vote share (late division). -/
def generate_bag (top_actions : List ℕ) (pdf : List ℚ) : ℕ × List ℚ :=
  if pdf.isEmpty then (E_EXPLORATION_EMPTY_PDF, pdf)
  else
    let num_models := top_actions.sum
    if num_models = 0 then
      (S_EXPLORATION_OK, 1 :: List.replicate (pdf.length - 1) 0)
    else
      (S_EXPLORATION_OK, bag_fill top_actions pdf num_models)

/-- Value read by `*std::max_element(scores_begin, scores_last)` in
`generate_softmax` after truncation to the overlap: the maximum of the
truncated scores, or — when the truncated range is empty while the full
range is not — the dereferenced begin iterator, i.e. the first score. -/
def max_score_of (truncated full : List ℚ) : ℚ :=
  match truncated with
  | [] => full.headD 0
  | x :: xs => xs.foldl max x

/-- Shallow embedding of `generate_softmax` from exploration.h.  `E`
abstracts the C `exp`.  On a length mismatch both ranges are truncated
to the overlap and the pdf tail beyond the overlap is zeroed; the
emptiness check then tests the ORIGINAL scores length (the variable
`num_actions_scores` is not updated by the truncation).  On the success
path each overlap position gets `E (lambda * (score - max_score))` and
is then divided by the accumulated norm. -/
def generate_softmax (E : ℚ → ℚ) (lambda : ℚ) (scores pdf : List ℚ) :
    ℕ × List ℚ :=
  let overlap := min scores.length pdf.length
  if scores.length = 0 then
    (E_EXPLORATION_EMPTY_PDF,
      pdf.take overlap ++ List.replicate (pdf.length - overlap) 0)
  else
    let truncated := scores.take overlap
    let max_score := max_score_of truncated scores
    let weights := truncated.map (fun s => E (lambda * (s - max_score)))
    let norm := weights.sum
    (S_EXPLORATION_OK,
      weights.map (fun w => w / norm) ++ List.replicate (pdf.length - overlap) 0)

/-- Computable, strictly monotone, everywhere-positive stand-in for the
exponential, used to instantiate the abstract `E` on concrete inputs. -/
def expSurrogate (x : ℚ) : ℚ :=
  if 0 ≤ x then x + 1 else 1 / (1 - x)

/-- Sum of the original values of the touched entries (the mass the
first pass of `enforce_minimum_probability` replaces by the floor). -/
def touched_orig_mass (u : Bool) (mp : ℚ) (pdf : List ℚ) : ℚ :=
  (pdf.map (fun p => if touchedB u mp p then p else 0)).sum

/-- The three output invariants of the spec's data model: non-negative
entries, total mass exactly 1, and unchanged buffer length. -/
def pdf_invariants (inp out : List ℚ) : Prop :=
  (∀ q ∈ out, 0 ≤ q) ∧ out.sum = 1 ∧ out.length = inp.length

-- Sanity checks of the embedding against the spec's concrete examples.
example : generate_bag [3, 1, 0] [0, 0, 0] = (S_EXPLORATION_OK, [3/4, 1/4, 0]) := by
  norm_num [generate_bag, bag_fill]
example : generate_bag [0, 0, 0, 0, 0] [9, 9, 9, 9, 9] =
    (S_EXPLORATION_OK, [1, 0, 0, 0, 0]) := by
  norm_num [generate_bag, List.replicate]
example : enforce_minimum_probability 1 true [1, 0, 0, 0] =
    (S_EXPLORATION_OK, [1/4, 1/4, 1/4, 1/4]) := by
  norm_num [enforce_minimum_probability]
example : generate_epsilon_greedy 0 1 [0, 0, 0] = (S_EXPLORATION_OK, [0, 1, 0]) := by
  norm_num [generate_epsilon_greedy, List.replicate]
example : generate_epsilon_greedy 1 0 [0, 0] = (S_EXPLORATION_OK, [1/2, 1/2]) := by
  norm_num [generate_epsilon_greedy, List.replicate]
example : generate_softmax expSurrogate 0 [5, 5] [0, 0] =
    (S_EXPLORATION_OK, [1/2, 1/2]) := by
  norm_num [generate_softmax, max_score_of, expSurrogate]

/-! Generic list helpers used throughout. -/

lemma getD_map (f : ℚ → ℚ) (l : List ℚ) (i : ℕ) (hi : i < l.length) :
    (l.map f).getD i 0 = f (l.getD i 0) := by
  rw [List.getD_eq_getElem _ _ (by simpa using hi), List.getD_eq_getElem _ _ hi,
    List.getElem_map]

lemma sum_map_div (l : List ℚ) (c : ℚ) :
    (l.map (fun w => w / c)).sum = l.sum / c := by
  induction l with
  | nil => simp
  | cons x xs ih => simp [ih, add_div]

lemma map_self_of_eq {f : ℚ → ℚ} {l : List ℚ} (h : ∀ a ∈ l, f a = a) :
    l.map f = l := by
  induction l with
  | nil => rfl
  | cons x xs ih =>
    simp only [List.map_cons, h x (by simp)]
    rw [ih (fun a ha => h a (by simp [ha]))]

lemma sum_replicate_set (n i : ℕ) (a b : ℚ) (h : i < n) :
    ((List.replicate n a).set i b).sum = n * a - a + b := by
  induction n generalizing i with
  | zero => omega
  | succ n ih =>
    cases i with
    | zero =>
      simp [List.replicate_succ, List.sum_replicate, nsmul_eq_mul]
      ring
    | succ i =>
      have hi : i < n := by omega
      simp only [List.replicate_succ, List.set_cons_succ, List.sum_cons, ih i hi]
      push_cast
      ring

/-! Structural lemmas about the first pass of
`enforce_minimum_probability`. -/

lemma touchedB_le {u : Bool} {mp p : ℚ} (h : touchedB u mp p = true) : p ≤ mp := by
  simp only [touchedB, Bool.and_eq_true, decide_eq_true_eq] at h
  exact h.2

lemma touchedB_nonneg {u : Bool} {mp p : ℚ} (h : touchedB u mp p = true) : 0 ≤ p := by
  simp only [touchedB, eligibleB, Bool.and_eq_true, Bool.or_eq_true,
    decide_eq_true_eq] at h
  rcases h.1 with h1 | h1
  · exact le_of_lt h1
  · exact le_of_eq h1.1.symm

lemma touchedB_of_pos_le {u : Bool} {mp p : ℚ} (hp : 0 < p) (hle : p ≤ mp) :
    touchedB u mp p = true := by
  simp [touchedB, eligibleB, hp, hle]

lemma untouched_small_eq_zero {u : Bool} {mp p : ℚ} (hp : 0 ≤ p)
    (hnt : ¬ touchedB u mp p = true) (hle : p ≤ mp) : p = 0 := by
  rcases lt_or_eq_of_le hp with h0 | h0
  · exact absurd (touchedB_of_pos_le h0 hle) hnt
  · exact h0.symm

lemma pass1_cons (u : Bool) (mp p : ℚ) (l : List ℚ) :
    pass1_list u mp (p :: l) =
      (if touchedB u mp p then mp else p) :: pass1_list u mp l := rfl

lemma touched_count_cons (u : Bool) (mp p : ℚ) (l : List ℚ) :
    touched_count u mp (p :: l) =
      touched_count u mp l + if touchedB u mp p then 1 else 0 :=
  List.countP_cons _ _ _

lemma touched_mass_cons (u : Bool) (mp p : ℚ) (l : List ℚ) :
    touched_mass u mp (p :: l) =
      touched_mass u mp l + if touchedB u mp p then mp else 0 := by
  simp only [touched_mass, touched_count_cons]
  split <;> push_cast <;> ring

lemma untouched_mass_cons (u : Bool) (mp p : ℚ) (l : List ℚ) :
    untouched_mass u mp (p :: l) =
      (if touchedB u mp p then 0 else p) + untouched_mass u mp l := by
  simp [untouched_mass]

lemma touched_orig_cons (u : Bool) (mp p : ℚ) (l : List ℚ) :
    touched_orig_mass u mp (p :: l) =
      (if touchedB u mp p then p else 0) + touched_orig_mass u mp l := by
  simp [touched_orig_mass]

lemma masses_split (u : Bool) (mp : ℚ) (pdf : List ℚ) :
    untouched_mass u mp pdf + touched_orig_mass u mp pdf = pdf.sum := by
  induction pdf with
  | nil => simp [untouched_mass, touched_orig_mass]
  | cons p l ih =>
    rw [untouched_mass_cons, touched_orig_cons, List.sum_cons]
    split <;> linarith [ih]

lemma touched_orig_le_mass (u : Bool) (mp : ℚ) (pdf : List ℚ) :
    touched_orig_mass u mp pdf ≤ touched_mass u mp pdf := by
  induction pdf with
  | nil => simp [touched_orig_mass, touched_mass, touched_count]
  | cons p l ih =>
    rw [touched_orig_cons, touched_mass_cons]
    by_cases h : touchedB u mp p = true
    · have hle := touchedB_le h
      rw [if_pos h, if_pos h]
      linarith [ih]
    · rw [if_neg h, if_neg h]
      linarith [ih]

lemma touched_orig_nonneg (u : Bool) (mp : ℚ) (pdf : List ℚ)
    (hnn : ∀ p ∈ pdf, 0 ≤ p) : 0 ≤ touched_orig_mass u mp pdf := by
  induction pdf with
  | nil => simp [touched_orig_mass]
  | cons p l ih =>
    rw [touched_orig_cons]
    have hp := hnn p (by simp)
    have hl := ih (fun q hq => hnn q (by simp [hq]))
    split <;> linarith

lemma touched_mass_nonneg (u : Bool) (mp : ℚ) (pdf : List ℚ) (hmp : 0 ≤ mp) :
    0 ≤ touched_mass u mp pdf := by
  unfold touched_mass
  positivity

lemma touched_orig_eq_mass (u : Bool) (mp : ℚ) (pdf : List ℚ)
    (h : ∀ p ∈ pdf, touchedB u mp p = true → p = mp) :
    touched_orig_mass u mp pdf = touched_mass u mp pdf := by
  induction pdf with
  | nil => simp [touched_orig_mass, touched_mass, touched_count]
  | cons p l ih =>
    rw [touched_orig_cons, touched_mass_cons]
    have hl := ih (fun q hq hqt => h q (by simp [hq]) hqt)
    rcases ht : touchedB u mp p with hf | htrue
    · simp [ht, hl]
    · have hp := h p (by simp) ht
      simp [ht, hl, hp, add_comm]

lemma scaled_sum (u : Bool) (mp r : ℚ) (pdf : List ℚ)
    (hnn : ∀ p ∈ pdf, 0 ≤ p) :
    ((pass1_list u mp pdf).map (fun p => if mp < p then p * r else p)).sum
      = touched_mass u mp pdf + r * untouched_mass u mp pdf := by
  induction pdf with
  | nil => simp [pass1_list, touched_mass, touched_count, untouched_mass]
  | cons p l ih =>
    have hrest := ih (fun q hq => hnn q (by simp [hq]))
    rw [pass1_cons, List.map_cons, List.sum_cons, touched_mass_cons,
      untouched_mass_cons, hrest]
    by_cases ht : touchedB u mp p = true
    · simp only [if_pos ht, if_neg (lt_irrefl mp)]
      ring
    · simp only [if_neg ht]
      by_cases hlt : mp < p
      · simp only [if_pos hlt]
        ring
      · have hp0 : p = 0 :=
          untouched_small_eq_zero (hnn p (by simp)) ht (le_of_not_lt hlt)
        simp only [hp0, zero_mul, ite_self]
        ring

lemma scaled_getD (u : Bool) (mp r : ℚ) (pdf : List ℚ) (i : ℕ)
    (hi : i < pdf.length)
    (ht : touchedB u mp (pdf.getD i 0) = true) :
    ((pass1_list u mp pdf).map (fun p => if mp < p then p * r else p)).getD i 0
      = mp := by
  rw [pass1_list, getD_map _ _ _ (by simpa using hi), getD_map _ _ _ hi,
    if_pos ht, if_neg (lt_irrefl mp)]

lemma scaled_nonneg (u : Bool) (mp r : ℚ) (pdf : List ℚ)
    (hnn : ∀ p ∈ pdf, 0 ≤ p) (hmp : 0 ≤ mp) (hr : 0 ≤ r) :
    ∀ q ∈ (pass1_list u mp pdf).map (fun p => if mp < p then p * r else p),
      0 ≤ q := by
  intro q hq
  rw [pass1_list, List.map_map] at hq
  obtain ⟨p, hp, rfl⟩ := List.mem_map.mp hq
  simp only [Function.comp_apply]
  by_cases ht : touchedB u mp p = true
  · simp only [if_pos ht, if_neg (lt_irrefl mp)]
    exact hmp
  · simp only [if_neg ht]
    by_cases hlt : mp < p
    · rw [if_pos hlt]
      exact mul_nonneg (hnn p hp) hr
    · rw [if_neg hlt]
      exact hnn p hp

lemma getD_mem_of_lt (l : List ℚ) (i : ℕ) (hi : i < l.length) :
    l.getD i 0 ∈ l := by
  rw [List.getD_eq_getElem _ _ hi]
  exact List.getElem_mem hi

lemma enforce_eq_ratio (m : ℚ) (u : Bool) (pdf : List ℚ)
    (hne : pdf ≠ []) (hm1 : ¬ m > 999/1000)
    (ht0 : 0 < touched_mass u (m / (pdf.length : ℚ)) pdf)
    (ht999 : ¬ touched_mass u (m / (pdf.length : ℚ)) pdf > 999/1000) :
    enforce_minimum_probability m u pdf =
      (S_EXPLORATION_OK,
        (pass1_list u (m / (pdf.length : ℚ)) pdf).map
          (fun p => if m / (pdf.length : ℚ) < p then
              p * ((1 - touched_mass u (m / (pdf.length : ℚ)) pdf) /
                   untouched_mass u (m / (pdf.length : ℚ)) pdf)
            else p)) := by
  have hE : pdf.isEmpty = false := by simpa [List.isEmpty_iff] using hne
  unfold enforce_minimum_probability
  simp only [hE, Bool.false_eq_true, if_false, if_neg hm1, if_pos ht0,
    if_neg ht999]

lemma enforce_eq_pass1 (m : ℚ) (u : Bool) (pdf : List ℚ)
    (hne : pdf ≠ []) (hm1 : ¬ m > 999/1000)
    (ht0 : ¬ 0 < touched_mass u (m / (pdf.length : ℚ)) pdf) :
    enforce_minimum_probability m u pdf =
      (S_EXPLORATION_OK, pass1_list u (m / (pdf.length : ℚ)) pdf) := by
  have hE : pdf.isEmpty = false := by simpa [List.isEmpty_iff] using hne
  unfold enforce_minimum_probability
  simp only [hE, Bool.false_eq_true, if_false, if_neg hm1, if_neg ht0]

/-- Core facts about the general (non-degenerate) path of
`enforce_minimum_probability` on a genuine PDF: success, length and sum
preservation, non-negativity, and the exact floor value on every entry
the first pass touches. -/
theorem enforce_general_facts (m : ℚ) (u : Bool) (pdf : List ℚ)
    (hnn : ∀ p ∈ pdf, 0 ≤ p) (hsum : pdf.sum = 1)
    (hm0 : 0 < m) (hm1 : m ≤ 999/1000) :
    (enforce_minimum_probability m u pdf).1 = S_EXPLORATION_OK ∧
    (enforce_minimum_probability m u pdf).2.length = pdf.length ∧
    (enforce_minimum_probability m u pdf).2.sum = 1 ∧
    (∀ q ∈ (enforce_minimum_probability m u pdf).2, 0 ≤ q) ∧
    (∀ i, i < pdf.length →
      touchedB u (m / (pdf.length : ℚ)) (pdf.getD i 0) = true →
      (enforce_minimum_probability m u pdf).2.getD i 0
        = m / (pdf.length : ℚ)) := by
  have hne : pdf ≠ [] := by
    intro h
    rw [h] at hsum
    norm_num at hsum
  have hN : 0 < pdf.length := List.length_pos.mpr hne
  have hNQ : (0:ℚ) < (pdf.length : ℚ) := by exact_mod_cast hN
  set mp := m / (pdf.length : ℚ) with hmp_def
  have hmp0 : 0 < mp := div_pos hm0 hNQ
  have hmN : mp * (pdf.length : ℚ) = m := div_mul_cancel₀ m (ne_of_gt hNQ)
  have hkle : (touched_count u mp pdf : ℚ) ≤ (pdf.length : ℚ) := by
    exact_mod_cast List.countP_le_length (touchedB u mp)
  have htle : touched_mass u mp pdf ≤ m := by
    rw [touched_mass, ← hmN]
    exact mul_le_mul_of_nonneg_left hkle (le_of_lt hmp0)
  have ht999 : ¬ touched_mass u mp pdf > 999/1000 := not_lt.mpr (htle.trans hm1)
  have hm999 : ¬ m > 999/1000 := not_lt.mpr hm1
  by_cases ht0 : 0 < touched_mass u mp pdf
  · have horig_le : touched_orig_mass u mp pdf ≤ touched_mass u mp pdf :=
      touched_orig_le_mass u mp pdf
    have hun : untouched_mass u mp pdf = 1 - touched_orig_mass u mp pdf := by
      have h := masses_split u mp pdf
      rw [hsum] at h
      linarith
    have hunpos : 0 < untouched_mass u mp pdf := by
      rw [hun]
      linarith
    have hr0 : 0 ≤ (1 - touched_mass u mp pdf) / untouched_mass u mp pdf :=
      div_nonneg (by linarith) (le_of_lt hunpos)
    rw [enforce_eq_ratio m u pdf hne hm999 ht0 ht999]
    refine ⟨rfl, by simp [pass1_list], ?_, ?_, ?_⟩
    · rw [scaled_sum u mp _ pdf hnn,
        div_mul_cancel₀ _ (ne_of_gt hunpos)]
      ring
    · exact scaled_nonneg u mp _ pdf hnn (le_of_lt hmp0) hr0
    · intro i hi hti
      exact scaled_getD u mp _ pdf i hi hti
  · have hk0 : touched_count u mp pdf = 0 := by
      by_contra hk
      exact ht0 (mul_pos hmp0 (by exact_mod_cast Nat.pos_of_ne_zero hk))
    have hnotouch : ∀ p ∈ pdf, ¬ touchedB u mp p = true := by
      intro p hp
      simpa using List.countP_eq_zero.mp hk0 p hp
    have hp1 : pass1_list u mp pdf = pdf :=
      map_self_of_eq (fun a ha => by rw [if_neg (hnotouch a ha)])
    rw [enforce_eq_pass1 m u pdf hne hm999 ht0, hp1]
    refine ⟨rfl, rfl, hsum, hnn, ?_⟩
    intro i hi hti
    exact absurd hti (hnotouch _ (getD_mem_of_lt pdf i hi))

/-- When every eligible entry of a genuine PDF already meets the floor
`min_prob / N`, `enforce_minimum_probability` returns the buffer
unchanged. -/
theorem enforce_noop (m : ℚ) (u : Bool) (pdf : List ℚ)
    (_hnn : ∀ p ∈ pdf, 0 ≤ p) (hsum : pdf.sum = 1)
    (hm0 : 0 < m) (hm1 : m ≤ 999/1000)
    (hfloor : ∀ p ∈ pdf, eligibleB u p = true → m / (pdf.length : ℚ) ≤ p) :
    enforce_minimum_probability m u pdf = (S_EXPLORATION_OK, pdf) := by
  have hne : pdf ≠ [] := by
    intro h
    rw [h] at hsum
    norm_num at hsum
  have hN : 0 < pdf.length := List.length_pos.mpr hne
  have hNQ : (0:ℚ) < (pdf.length : ℚ) := by exact_mod_cast hN
  set mp := m / (pdf.length : ℚ) with hmp_def
  have hmp0 : 0 < mp := div_pos hm0 hNQ
  have hmN : mp * (pdf.length : ℚ) = m := div_mul_cancel₀ m (ne_of_gt hNQ)
  have hkle : (touched_count u mp pdf : ℚ) ≤ (pdf.length : ℚ) := by
    exact_mod_cast List.countP_le_length (touchedB u mp)
  have htle : touched_mass u mp pdf ≤ m := by
    rw [touched_mass, ← hmN]
    exact mul_le_mul_of_nonneg_left hkle (le_of_lt hmp0)
  have ht999 : ¬ touched_mass u mp pdf > 999/1000 := not_lt.mpr (htle.trans hm1)
  have hm999 : ¬ m > 999/1000 := not_lt.mpr hm1
  have htouch_eq : ∀ p ∈ pdf, touchedB u mp p = true → p = mp := by
    intro p hp ht
    have h1 := touchedB_le ht
    have h2 : eligibleB u p = true := by
      simp only [touchedB, Bool.and_eq_true] at ht
      exact ht.1
    exact le_antisymm h1 (hfloor p hp h2)
  have hp1 : pass1_list u mp pdf = pdf :=
    map_self_of_eq (fun a ha => by
      by_cases ht : touchedB u mp a = true
      · rw [if_pos ht, htouch_eq a ha ht]
      · rw [if_neg ht])
  by_cases ht0 : 0 < touched_mass u mp pdf
  · have horig : touched_orig_mass u mp pdf = touched_mass u mp pdf :=
      touched_orig_eq_mass u mp pdf htouch_eq
    have hun : untouched_mass u mp pdf = 1 - touched_mass u mp pdf := by
      have h := masses_split u mp pdf
      rw [hsum, horig] at h
      linarith
    have h1t : (0:ℚ) < 1 - touched_mass u mp pdf := by linarith
    have hr1 : (1 - touched_mass u mp pdf) / untouched_mass u mp pdf = 1 := by
      rw [hun]
      exact div_self (ne_of_gt h1t)
    rw [enforce_eq_ratio m u pdf hne hm999 ht0 ht999, hp1]
    simp only [hr1, mul_one, ite_self]
    rw [map_self_of_eq (fun a _ => rfl)]
  · rw [enforce_eq_pass1 m u pdf hne hm999 ht0, hp1]

/-! Helper layer for `generate_epsilon_greedy`. -/

/-- On a non-empty buffer, `generate_epsilon_greedy` succeeds and the
output is the uniform `epsilon / N` buffer with `1 - epsilon` added at
the (clamped) top action. -/
theorem epsilon_greedy_spec (epsilon : ℚ) (top_action : ℕ) (pdf : List ℚ)
    (hN : 0 < pdf.length) :
    generate_epsilon_greedy epsilon top_action pdf =
      (S_EXPLORATION_OK,
        (List.replicate pdf.length (epsilon / (pdf.length : ℚ))).set
          (if pdf.length ≤ top_action then pdf.length - 1 else top_action)
          (epsilon / (pdf.length : ℚ) + (1 - epsilon))) := by
  have hne : pdf ≠ [] := List.length_pos.mp hN
  have hE : pdf.isEmpty = false := by simpa [List.isEmpty_iff] using hne
  unfold generate_epsilon_greedy
  simp only [hE, Bool.false_eq_true, if_false, ge_iff_le]

lemma eps_clamp_lt (top_action : ℕ) (n : ℕ) (hN : 0 < n) :
    (if n ≤ top_action then n - 1 else top_action) < n := by
  split <;> omega

lemma eps_sum_one (epsilon : ℚ) (top_action : ℕ) (pdf : List ℚ)
    (hN : 0 < pdf.length) :
    (generate_epsilon_greedy epsilon top_action pdf).2.sum = 1 := by
  have hNQ : (0:ℚ) < (pdf.length : ℚ) := by exact_mod_cast hN
  rw [epsilon_greedy_spec epsilon top_action pdf hN]
  rw [sum_replicate_set _ _ _ _ (eps_clamp_lt top_action pdf.length hN)]
  field_simp
  ring

lemma eps_getD_top (epsilon : ℚ) (top_action : ℕ) (pdf : List ℚ)
    (hN : 0 < pdf.length) :
    (generate_epsilon_greedy epsilon top_action pdf).2.getD
        (if pdf.length ≤ top_action then pdf.length - 1 else top_action) 0
      = epsilon / (pdf.length : ℚ) + (1 - epsilon) := by
  rw [epsilon_greedy_spec epsilon top_action pdf hN]
  have ht := eps_clamp_lt top_action pdf.length hN
  rw [List.getD_eq_getElem _ _ (by simpa using ht)]
  exact List.getElem_set_self _

lemma eps_getD_other (epsilon : ℚ) (top_action : ℕ) (pdf : List ℚ)
    (hN : 0 < pdf.length) (i : ℕ) (hi : i < pdf.length)
    (hne : i ≠ (if pdf.length ≤ top_action then pdf.length - 1 else top_action)) :
    (generate_epsilon_greedy epsilon top_action pdf).2.getD i 0
      = epsilon / (pdf.length : ℚ) := by
  rw [epsilon_greedy_spec epsilon top_action pdf hN]
  rw [List.getD_eq_getElem _ _ (by simpa using hi)]
  rw [List.getElem_set_ne (fun h => hne h.symm) (by simpa using hi)]
  exact List.getElem_replicate _ _

lemma eps_mem (epsilon : ℚ) (top_action : ℕ) (pdf : List ℚ)
    (hN : 0 < pdf.length) (q : ℚ)
    (hq : q ∈ (generate_epsilon_greedy epsilon top_action pdf).2) :
    q = epsilon / (pdf.length : ℚ) ∨
    q = epsilon / (pdf.length : ℚ) + (1 - epsilon) := by
  rw [epsilon_greedy_spec epsilon top_action pdf hN] at hq
  rcases List.mem_or_eq_of_mem_set hq with h | h
  · exact Or.inl (List.eq_of_mem_replicate h)
  · exact Or.inr h

lemma eps_length (epsilon : ℚ) (top_action : ℕ) (pdf : List ℚ)
    (hN : 0 < pdf.length) :
    (generate_epsilon_greedy epsilon top_action pdf).2.length = pdf.length := by
  rw [epsilon_greedy_spec epsilon top_action pdf hN]
  simp

/-! Helper layer for `generate_bag`. -/

lemma bag_fill_length (votes : List ℕ) (pdf : List ℚ) (total : ℕ) :
    (bag_fill votes pdf total).length = pdf.length := by
  induction votes generalizing pdf with
  | nil => rfl
  | cons v vs ih =>
    cases pdf with
    | nil => rfl
    | cons p ps => simp [bag_fill, ih]

lemma bag_fill_getD_lt (votes : List ℕ) (pdf : List ℚ) (total : ℕ) (i : ℕ)
    (hi : i < votes.length) (hi2 : i < pdf.length) :
    (bag_fill votes pdf total).getD i 0
      = ((votes.getD i 0 : ℕ) : ℚ) / (total : ℚ) := by
  induction votes generalizing pdf i with
  | nil => simp at hi
  | cons v vs ih =>
    cases pdf with
    | nil => simp at hi2
    | cons p ps =>
      cases i with
      | zero => rfl
      | succ i =>
        have h1 : i < vs.length := by simpa using hi
        have h2 : i < ps.length := by simpa using hi2
        simpa [bag_fill] using ih ps i h1 h2

lemma bag_fill_getD_ge (votes : List ℕ) (pdf : List ℚ) (total : ℕ) (i : ℕ)
    (hi : votes.length ≤ i) :
    (bag_fill votes pdf total).getD i 0 = pdf.getD i 0 := by
  induction votes generalizing pdf i with
  | nil => rfl
  | cons v vs ih =>
    cases pdf with
    | nil => rfl
    | cons p ps =>
      cases i with
      | zero => simp at hi
      | succ i =>
        have h1 : vs.length ≤ i := by simpa using hi
        simpa [bag_fill] using ih ps i h1

lemma bag_fill_sum (votes : List ℕ) (pdf : List ℚ) (total : ℕ)
    (hlen : votes.length = pdf.length) :
    (bag_fill votes pdf total).sum = ((votes.sum : ℕ) : ℚ) / (total : ℚ) := by
  induction votes generalizing pdf with
  | nil =>
    cases pdf with
    | nil => simp [bag_fill]
    | cons p ps => simp at hlen
  | cons v vs ih =>
    cases pdf with
    | nil => simp at hlen
    | cons p ps =>
      have h1 : vs.length = ps.length := by simpa using hlen
      rw [show bag_fill (v :: vs) (p :: ps) total
            = ((v : ℚ) / (total : ℚ)) :: bag_fill vs ps total from rfl,
        List.sum_cons, ih ps h1, div_add_div_same]
      congr 1
      push_cast
      simp [List.sum_cons]

lemma bag_fill_nonneg (votes : List ℕ) (pdf : List ℚ) (total : ℕ)
    (hpdf : ∀ p ∈ pdf, 0 ≤ p) :
    ∀ q ∈ bag_fill votes pdf total, 0 ≤ q := by
  induction votes generalizing pdf with
  | nil =>
    intro q hq
    exact hpdf q hq
  | cons v vs ih =>
    cases pdf with
    | nil => intro q hq; simp [bag_fill] at hq
    | cons p ps =>
      intro q hq
      rw [show bag_fill (v :: vs) (p :: ps) total
            = ((v : ℚ) / (total : ℚ)) :: bag_fill vs ps total from rfl] at hq
      rcases List.mem_cons.mp hq with h | h
      · rw [h]; positivity
      · exact ih ps (fun r hr => hpdf r (by simp [hr])) q h

lemma bag_eq_zero_case (votes : List ℕ) (pdf : List ℚ)
    (hne : pdf ≠ []) (hz : votes.sum = 0) :
    generate_bag votes pdf
      = (S_EXPLORATION_OK, 1 :: List.replicate (pdf.length - 1) 0) := by
  have hE : pdf.isEmpty = false := by simpa [List.isEmpty_iff] using hne
  unfold generate_bag
  simp [hE, hz]

lemma bag_eq_pos_case (votes : List ℕ) (pdf : List ℚ)
    (hne : pdf ≠ []) (hz : votes.sum ≠ 0) :
    generate_bag votes pdf
      = (S_EXPLORATION_OK, bag_fill votes pdf votes.sum) := by
  have hE : pdf.isEmpty = false := by simpa [List.isEmpty_iff] using hne
  unfold generate_bag
  simp only [hE, Bool.false_eq_true, if_false, if_neg hz]

/-! Helper layer for `generate_softmax`. -/

lemma softmax_ok_eq (E : ℚ → ℚ) (lambda : ℚ) (scores pdf : List ℚ)
    (hne : scores ≠ []) (hlen : scores.length = pdf.length) :
    generate_softmax E lambda scores pdf =
      (S_EXPLORATION_OK,
        (scores.map (fun s => E (lambda * (s - max_score_of scores scores)))).map
          (fun w => w /
            (scores.map
              (fun s => E (lambda * (s - max_score_of scores scores)))).sum)) := by
  have hM : ¬ scores.length = 0 := by simpa using hne
  have hov : min scores.length pdf.length = scores.length := by
    rw [hlen]
    exact Nat.min_self _
  have h0 : pdf.length - scores.length = 0 := by omega
  unfold generate_softmax
  rw [if_neg hM]
  simp only [hov, h0, List.take_length, List.replicate_zero, List.append_nil]

lemma softmax_norm_pos (E : ℚ → ℚ) (lambda : ℚ) (scores : List ℚ)
    (hEpos : ∀ x, 0 < E x) (hne : scores ≠ []) :
    0 < (scores.map
      (fun s => E (lambda * (s - max_score_of scores scores)))).sum := by
  apply List.sum_pos
  · intro w hw
    obtain ⟨s, _, rfl⟩ := List.mem_map.mp hw
    exact hEpos _
  · intro h
    exact hne (by simpa using h)

lemma softmax_sum_one (E : ℚ → ℚ) (lambda : ℚ) (scores pdf : List ℚ)
    (hEpos : ∀ x, 0 < E x) (hne : scores ≠ [])
    (hlen : scores.length = pdf.length) :
    (generate_softmax E lambda scores pdf).2.sum = 1 := by
  rw [softmax_ok_eq E lambda scores pdf hne hlen]
  show ((scores.map _).map _).sum = 1
  rw [sum_map_div]
  exact div_self (ne_of_gt (softmax_norm_pos E lambda scores hEpos hne))

lemma softmax_nonneg (E : ℚ → ℚ) (lambda : ℚ) (scores pdf : List ℚ)
    (hEpos : ∀ x, 0 < E x) (hne : scores ≠ [])
    (hlen : scores.length = pdf.length) :
    ∀ q ∈ (generate_softmax E lambda scores pdf).2, 0 ≤ q := by
  rw [softmax_ok_eq E lambda scores pdf hne hlen]
  intro q hq
  obtain ⟨w, hw, rfl⟩ := List.mem_map.mp hq
  obtain ⟨s, _, rfl⟩ := List.mem_map.mp hw
  exact le_of_lt
    (div_pos (hEpos _) (softmax_norm_pos E lambda scores hEpos hne))

lemma softmax_length (E : ℚ → ℚ) (lambda : ℚ) (scores pdf : List ℚ)
    (hne : scores ≠ []) (hlen : scores.length = pdf.length) :
    (generate_softmax E lambda scores pdf).2.length = pdf.length := by
  rw [softmax_ok_eq E lambda scores pdf hne hlen]
  simpa using hlen

lemma softmax_getD (E : ℚ → ℚ) (lambda : ℚ) (scores pdf : List ℚ)
    (hne : scores ≠ []) (hlen : scores.length = pdf.length)
    (i : ℕ) (hi : i < scores.length) :
    (generate_softmax E lambda scores pdf).2.getD i 0
      = E (lambda * (scores.getD i 0 - max_score_of scores scores)) /
        (scores.map
          (fun s => E (lambda * (s - max_score_of scores scores)))).sum := by
  rw [softmax_ok_eq E lambda scores pdf hne hlen]
  show ((scores.map _).map _).getD i 0 = _
  rw [getD_map _ _ _ (by simpa using hi), getD_map _ _ _ hi]

lemma foldl_max_map_add (xs : List ℚ) (x c : ℚ) :
    (xs.map (fun s => s + c)).foldl max (x + c) = xs.foldl max x + c := by
  induction xs generalizing x with
  | nil => rfl
  | cons y ys ih =>
    simp only [List.map_cons, List.foldl_cons, max_add_add_right]
    exact ih (max x y)

lemma max_score_of_shift (x c : ℚ) (xs : List ℚ) :
    max_score_of ((x :: xs).map (fun s => s + c)) ((x :: xs).map (fun s => s + c))
      = max_score_of (x :: xs) (x :: xs) + c := by
  simp only [List.map_cons, max_score_of]
  exact foldl_max_map_add xs x c

lemma expSurrogate_pos (x : ℚ) : 0 < expSurrogate x := by
  unfold expSurrogate
  split
  · linarith
  · have h1 : (0:ℚ) < 1 - x := by linarith [not_le.mp (by assumption : ¬ (0:ℚ) ≤ x)]
    positivity

lemma expSurrogate_mono : Monotone expSurrogate := by
  intro a b hab
  unfold expSurrogate
  split_ifs with ha hb hb
  · linarith
  · exact absurd (le_trans ha hab) hb
  · have h1 : (0:ℚ) < 1 - a := by linarith [not_le.mp ha]
    have h2 : 1 / (1 - a) ≤ 1 := by
      rw [div_le_one h1]
      linarith [not_le.mp ha]
    linarith
  · have ha' : a < 0 := not_le.mp ha
    have hb' : b < 0 := not_le.mp hb
    have h1 : (0:ℚ) < 1 - b := by linarith
    exact one_div_le_one_div_of_le h1 (by linarith)

/-- C7: on a non-empty buffer `generate_epsilon_greedy` succeeds; the
output is the uniform `epsilon/N` buffer with `1 - epsilon` added at the
top action (clamped to `N-1` when `top_action >= N`); the clamped top
entry equals `epsilon/N + (1 - epsilon)`, every other entry equals
`epsilon/N`, and in exact arithmetic the entries sum to exactly 1. -/
theorem C7_epsilon_greedy_characterization (epsilon : ℚ) (top_action : ℕ)
    (pdf : List ℚ) (hN : 0 < pdf.length) :
    (generate_epsilon_greedy epsilon top_action pdf).1 = S_EXPLORATION_OK ∧
    (generate_epsilon_greedy epsilon top_action pdf).2
      = (List.replicate pdf.length (epsilon / (pdf.length : ℚ))).set
          (if pdf.length ≤ top_action then pdf.length - 1 else top_action)
          (epsilon / (pdf.length : ℚ) + (1 - epsilon)) ∧
    (generate_epsilon_greedy epsilon top_action pdf).2.getD
        (if pdf.length ≤ top_action then pdf.length - 1 else top_action) 0
      = epsilon / (pdf.length : ℚ) + (1 - epsilon) ∧
    (∀ i, i < pdf.length →
      i ≠ (if pdf.length ≤ top_action then pdf.length - 1 else top_action) →
      (generate_epsilon_greedy epsilon top_action pdf).2.getD i 0
        = epsilon / (pdf.length : ℚ)) ∧
    (generate_epsilon_greedy epsilon top_action pdf).2.sum = 1 := by
  refine ⟨?_, ?_, eps_getD_top epsilon top_action pdf hN, ?_,
    eps_sum_one epsilon top_action pdf hN⟩
  · rw [epsilon_greedy_spec epsilon top_action pdf hN]
  · rw [epsilon_greedy_spec epsilon top_action pdf hN]
  · intro i hi hne
    exact eps_getD_other epsilon top_action pdf hN i hi hne

/-- Witness for C7: a concrete call with an out-of-range top action. -/
theorem C7_witness :
    (generate_epsilon_greedy (1/2) 7 [0, 0, 0]).2.sum = 1 :=
  (C7_epsilon_greedy_characterization (1/2) 7 [0, 0, 0] (by norm_num)).2.2.2.2

/-- C6: a successful `generate_bag` call with all-zero votes yields mass 1
at position 0 and 0 elsewhere; with a positive vote total each overlap
position gets its vote share and positions past the votes keep their
prior contents. -/
theorem C6_bag_characterization (votes : List ℕ) (pdf : List ℚ)
    (hN : 0 < pdf.length) :
    (generate_bag votes pdf).1 = S_EXPLORATION_OK ∧
    (votes.sum = 0 →
      (generate_bag votes pdf).2 = 1 :: List.replicate (pdf.length - 1) 0) ∧
    (votes.sum ≠ 0 →
      (∀ i, i < votes.length → i < pdf.length →
        (generate_bag votes pdf).2.getD i 0
          = ((votes.getD i 0 : ℕ) : ℚ) / ((votes.sum : ℕ) : ℚ)) ∧
      (∀ i, votes.length ≤ i →
        (generate_bag votes pdf).2.getD i 0 = pdf.getD i 0)) := by
  have hne : pdf ≠ [] := List.length_pos.mp hN
  by_cases hz : votes.sum = 0
  · rw [bag_eq_zero_case votes pdf hne hz]
    exact ⟨rfl, fun _ => rfl, fun h => absurd hz h⟩
  · rw [bag_eq_pos_case votes pdf hne hz]
    refine ⟨rfl, fun h => absurd h hz, fun _ => ⟨?_, ?_⟩⟩
    · intro i h1 h2
      exact bag_fill_getD_lt votes pdf votes.sum i h1 h2
    · intro i h1
      exact bag_fill_getD_ge votes pdf votes.sum i h1

/-- Witness for C6: votes `[3,1,0]` give the first action 3/4. -/
theorem C6_witness : (generate_bag [3, 1, 0] [0, 0, 0]).2.getD 0 0 = 3/4 := by
  have h := ((C6_bag_characterization [3, 1, 0] [0, 0, 0] (by norm_num)).2.2
    (by norm_num)).1 0 (by norm_num) (by norm_num)
  norm_num at h
  exact h

/-- C10: the zero-total fallback of `generate_bag` writes every one of the
N pdf positions — 1 at position 0, 0 at positions 1..N-1 — regardless of
the votes length. -/
theorem C10_bag_zero_total_writes_all (votes : List ℕ) (pdf : List ℚ)
    (hN : 0 < pdf.length) (hz : votes.sum = 0) :
    generate_bag votes pdf
      = (S_EXPLORATION_OK, 1 :: List.replicate (pdf.length - 1) 0) :=
  bag_eq_zero_case votes pdf (List.length_pos.mp hN) hz

/-- Witness for C10: a single zero vote against a length-3 pdf overwrites
all three positions, including the two past the votes length. -/
theorem C10_witness : (generate_bag [0] [5, 7, 9]).2 = [1, 0, 0] := by
  rw [C10_bag_zero_total_writes_all [0] [5, 7, 9] (by norm_num) (by norm_num)]
  simp [List.replicate]

/-- C9: `generate_softmax` on an empty scores range and a non-empty pdf
writes 0 into every pdf position and then reports EmptyPdf — the error
return still mutates the caller's buffer. -/
theorem C9_softmax_empty_scores_zeroes (E : ℚ → ℚ) (lambda : ℚ)
    (pdf : List ℚ) (_hN : 0 < pdf.length) :
    generate_softmax E lambda [] pdf
      = (E_EXPLORATION_EMPTY_PDF, List.replicate pdf.length 0) := by
  unfold generate_softmax
  simp

/-- Witness for C9 at a concrete two-action pdf. -/
theorem C9_witness :
    generate_softmax expSurrogate 0 [] [1/2, 1/2]
      = (E_EXPLORATION_EMPTY_PDF, [0, 0]) := by
  rw [C9_softmax_empty_scores_zeroes expSurrogate 0 [1/2, 1/2] (by norm_num)]
  simp [List.replicate]

/-- C3: at the failing input (one score, empty pdf — overlap length 0)
`generate_softmax` returns Success, not EmptyPdf: the emptiness check at
exploration.h line 67 reads the stale pre-truncation scores length
`num_actions_scores`, so an empty PDf buffer with non-empty scores slips
through. -/
theorem C3_softmax_empty_pdf_returns_ok :
    generate_softmax expSurrogate 1 [2] [] = (S_EXPLORATION_OK, []) ∧
    S_EXPLORATION_OK ≠ E_EXPLORATION_EMPTY_PDF := by
  constructor
  · norm_num [generate_softmax, max_score_of]
  · norm_num [S_EXPLORATION_OK, E_EXPLORATION_EMPTY_PDF]

/-- C5 counterexample: with `lambda = -1` (and any positive strictly
monotone weight function, here the surrogate exponential) the position
holding the maximum score (index 1, score 1) receives probability 1/3
while index 0 receives 2/3 — the claim fails for negative lambda. -/
theorem C5_counterexample :
    generate_softmax expSurrogate (-1) [0, 1] [0, 0]
      = (S_EXPLORATION_OK, [2/3, 1/3]) ∧ ((1:ℚ)/3 < 2/3) := by
  constructor
  · norm_num [generate_softmax, max_score_of, expSurrogate]
  · norm_num

/-- C5 amended: for every NON-NEGATIVE lambda, every positive monotone
weight function, every non-empty scores list, and every pdf buffer of the
same length, `generate_softmax` succeeds, the output sums to exactly 1,
and every position holding a maximum score receives the highest (or
tied-highest) probability. -/
theorem C5_softmax_amended (E : ℚ → ℚ) (lambda : ℚ) (scores pdf : List ℚ)
    (hEpos : ∀ x, 0 < E x) (hEmono : Monotone E) (hlam : 0 ≤ lambda)
    (hne : scores ≠ []) (hlen : scores.length = pdf.length) :
    (generate_softmax E lambda scores pdf).1 = S_EXPLORATION_OK ∧
    (generate_softmax E lambda scores pdf).2.sum = 1 ∧
    ∀ i j, i < scores.length → j < scores.length →
      (∀ k, k < scores.length → scores.getD k 0 ≤ scores.getD j 0) →
      (generate_softmax E lambda scores pdf).2.getD i 0 ≤
        (generate_softmax E lambda scores pdf).2.getD j 0 := by
  refine ⟨?_, softmax_sum_one E lambda scores pdf hEpos hne hlen, ?_⟩
  · rw [softmax_ok_eq E lambda scores pdf hne hlen]
  · intro i j hi hj hmax
    rw [softmax_getD E lambda scores pdf hne hlen i hi,
      softmax_getD E lambda scores pdf hne hlen j hj]
    have hw : E (lambda * (scores.getD i 0 - max_score_of scores scores))
        ≤ E (lambda * (scores.getD j 0 - max_score_of scores scores)) :=
      hEmono (mul_le_mul_of_nonneg_left
        (sub_le_sub_right (hmax i hi) _) hlam)
    exact div_le_div_of_nonneg_right
      hw (softmax_norm_pos E lambda scores hEpos hne).le

/-- Witness for the amended C5 at lambda 2, scores `[1, 3]`. -/
theorem C5_witness :
    (generate_softmax expSurrogate 2 [1, 3] [0, 0]).2.sum = 1 :=
  (C5_softmax_amended expSurrogate 2 [1, 3] [0, 0] expSurrogate_pos
    expSurrogate_mono (by norm_num) (by simp) (by simp)).2.1

/-- C8: adding a constant to every score leaves the softmax output
unchanged (the subtracted maximum shifts by the same constant, so every
weight argument is identical), for any weight function and any lambda. -/
theorem C8_softmax_shift_invariance (E : ℚ → ℚ) (lambda c : ℚ)
    (scores pdf : List ℚ) (hlen : scores.length = pdf.length) :
    generate_softmax E lambda (scores.map (fun s => s + c)) pdf
      = generate_softmax E lambda scores pdf := by
  cases scores with
  | nil =>
    have hpdf : pdf = [] := by
      cases pdf with
      | nil => rfl
      | cons p ps => simp at hlen
    rw [hpdf]
    rfl
  | cons x xs =>
    have hlen2 : ((x :: xs).map (fun s => s + c)).length = pdf.length := by
      simpa using hlen
    rw [softmax_ok_eq E lambda _ pdf (by simp) hlen2,
      softmax_ok_eq E lambda (x :: xs) pdf (by simp) hlen,
      max_score_of_shift x c xs]
    have hw : ((x :: xs).map (fun s => s + c)).map
        (fun s => E (lambda * (s - (max_score_of (x :: xs) (x :: xs) + c))))
        = (x :: xs).map
            (fun s => E (lambda * (s - max_score_of (x :: xs) (x :: xs)))) := by
      rw [List.map_map]
      apply List.map_congr_left
      intro a _
      simp only [Function.comp_apply]
      congr 1
      ring
    rw [hw]

/-- Witness for C8: shifting scores `[1, 3]` by 5 yields the same pdf. -/
theorem C8_witness :
    generate_softmax expSurrogate 2 ([1, 3].map (fun s => s + 5)) [0, 0]
      = generate_softmax expSurrogate 2 [1, 3] [0, 0] :=
  C8_softmax_shift_invariance expSurrogate 2 5 [1, 3] [0, 0] (by simp)

lemma bag_fill_nonneg_eqlen (votes : List ℕ) (pdf : List ℚ) (total : ℕ)
    (hlen : votes.length = pdf.length) :
    ∀ q ∈ bag_fill votes pdf total, 0 ≤ q := by
  induction votes generalizing pdf with
  | nil =>
    cases pdf with
    | nil => intro q hq; simp [bag_fill] at hq
    | cons p ps => simp at hlen
  | cons v vs ih =>
    cases pdf with
    | nil => simp at hlen
    | cons p ps =>
      intro q hq
      rw [show bag_fill (v :: vs) (p :: ps) total
            = ((v : ℚ) / (total : ℚ)) :: bag_fill vs ps total from rfl] at hq
      rcases List.mem_cons.mp hq with h | h
      · rw [h]
        positivity
      · exact ih ps (by simpa using hlen) q h

/-- C1 counterexample: `min_prob = 0.999`, `update_zero_elements = true`,
pdf `[1/10, 9/10, 0, 0, 0, 0, 0, 0, 0, 0]` (non-negative, sums to 1,
N = 10).  The first entry is eligible (1/10 > 0), yet after the call it
holds 251/12500 = 0.02008, strictly below the floor
`min_prob/N = 999/10000 = 0.0999`: the rescaling pass pushes an
above-floor entry below the floor. -/
theorem C1_counterexample :
    (enforce_minimum_probability (999/1000) true
      [1/10, 9/10, 0, 0, 0, 0, 0, 0, 0, 0]).1 = S_EXPLORATION_OK ∧
    (0:ℚ) < 1/10 ∧
    ([1/10, 9/10, 0, 0, 0, 0, 0, 0, 0, 0] : List ℚ).sum = 1 ∧
    (enforce_minimum_probability (999/1000) true
      [1/10, 9/10, 0, 0, 0, 0, 0, 0, 0, 0]).2.getD 0 0
      < (999/1000) /
        (([1/10, 9/10, 0, 0, 0, 0, 0, 0, 0, 0] : List ℚ).length : ℚ) := by
  norm_num [enforce_minimum_probability, touched_mass, touched_count,
    untouched_mass, pass1_list, touchedB, eligibleB, List.countP_cons,
    List.countP_nil]

/-- C1 amended: on a genuine PDF (non-negative entries summing to 1) and
`min_prob` in (0, 0.999], a call succeeds, keeps every entry
non-negative, raises every eligible entry that was at most the floor
`min_prob/N` to exactly the floor, and the sum of all entries remains
exactly 1.  (Entries initially above the floor are only rescaled and are
not guaranteed to stay above the floor.) -/
theorem C1_enforce_amended (m : ℚ) (u : Bool) (pdf : List ℚ)
    (hnn : ∀ p ∈ pdf, 0 ≤ p) (hsum : pdf.sum = 1)
    (hm0 : 0 < m) (hm1 : m ≤ 999/1000) :
    (enforce_minimum_probability m u pdf).1 = S_EXPLORATION_OK ∧
    (∀ q ∈ (enforce_minimum_probability m u pdf).2, 0 ≤ q) ∧
    (∀ i, i < pdf.length → eligibleB u (pdf.getD i 0) = true →
      pdf.getD i 0 ≤ m / (pdf.length : ℚ) →
      (enforce_minimum_probability m u pdf).2.getD i 0
        = m / (pdf.length : ℚ)) ∧
    (enforce_minimum_probability m u pdf).2.sum = 1 := by
  obtain ⟨h1, _, h3, h4, h5⟩ := enforce_general_facts m u pdf hnn hsum hm0 hm1
  refine ⟨h1, h4, ?_, h3⟩
  intro i hi helig hle
  refine h5 i hi ?_
  simp only [touchedB, Bool.and_eq_true, decide_eq_true_eq]
  exact ⟨helig, hle⟩

/-- Witness for the amended C1 at `min_prob = 1/2`, pdf `[1/8, 7/8]`. -/
theorem C1_witness :
    (enforce_minimum_probability (1/2) true [1/8, 7/8]).2.sum = 1 :=
  (C1_enforce_amended (1/2) true [1/8, 7/8]
    (by intro p hp; fin_cases hp <;> norm_num)
    (by norm_num) (by norm_num) (by norm_num)).2.2.2

/-- C2 counterexample: with `min_prob = 0.999` and the valid PDF
`[1/10, 9/10, 0,...,0]`, a second application of
`enforce_minimum_probability` changes the buffer again, so the operator
is not unconditionally idempotent. -/
theorem C2_counterexample :
    (enforce_minimum_probability (999/1000) true
      ((enforce_minimum_probability (999/1000) true
        [1/10, 9/10, 0, 0, 0, 0, 0, 0, 0, 0]).2)).2
      ≠ (enforce_minimum_probability (999/1000) true
          [1/10, 9/10, 0, 0, 0, 0, 0, 0, 0, 0]).2 := by
  norm_num [enforce_minimum_probability, touched_mass, touched_count,
    untouched_mass, pass1_list, touchedB, eligibleB, List.countP_cons,
    List.countP_nil]

/-- C2 amended: on a genuine PDF every eligible entry of which already
meets the floor `min_prob/N` (with `min_prob` in (0, 0.999]),
`enforce_minimum_probability` is a no-op, and hence applying it twice
gives the same buffer as applying it once. -/
theorem C2_enforce_idempotent_on_floor (m : ℚ) (u : Bool) (pdf : List ℚ)
    (hnn : ∀ p ∈ pdf, 0 ≤ p) (hsum : pdf.sum = 1)
    (hm0 : 0 < m) (hm1 : m ≤ 999/1000)
    (hfloor : ∀ p ∈ pdf, eligibleB u p = true →
      m / (pdf.length : ℚ) ≤ p) :
    (enforce_minimum_probability m u pdf).2 = pdf ∧
    enforce_minimum_probability m u
        ((enforce_minimum_probability m u pdf).2)
      = enforce_minimum_probability m u pdf := by
  have h := enforce_noop m u pdf hnn hsum hm0 hm1 hfloor
  constructor
  · rw [h]
  · rw [h]
    exact h

/-- Witness for the amended C2 at `min_prob = 1/2`, pdf `[1/4, 3/4]`. -/
theorem C2_witness :
    (enforce_minimum_probability (1/2) true [1/4, 3/4]).2 = [1/4, 3/4] :=
  (C2_enforce_idempotent_on_floor (1/2) true [1/4, 3/4]
    (by intro p hp; fin_cases hp <;> norm_num)
    (by norm_num) (by norm_num) (by norm_num)
    (by intro p hp _; fin_cases hp <;> norm_num)).1

/-- C4 counterexample: `generate_epsilon_greedy` with `epsilon = -1`
returns Success but writes the negative entry -1/2, violating the
"every entry is non-negative" invariant: the claim does not hold for
EVERY input on which the operation succeeds. -/
theorem C4_counterexample :
    (generate_epsilon_greedy (-1) 0 [0, 0]).1 = S_EXPLORATION_OK ∧
    (generate_epsilon_greedy (-1) 0 [0, 0]).2 = [3/2, -(1/2)] ∧
    ¬ (0:ℚ) ≤ -(1/2) := by
  norm_num [generate_epsilon_greedy, List.replicate]

/-- C4 amended: within each operation's documented preconditions —
`epsilon` in [0,1] for epsilon-greedy; a positive weight function,
non-empty scores and matching lengths for softmax; matching lengths for
bag; a genuine PDF and `min_prob` in (0, 0.999] for enforcement — every
successful result has non-negative entries, sums to exactly 1, and keeps
the buffer length. -/
theorem C4_amended_invariants :
    (∀ (epsilon : ℚ) (top_action : ℕ) (pdf : List ℚ),
      0 ≤ epsilon → epsilon ≤ 1 → 0 < pdf.length →
      pdf_invariants pdf (generate_epsilon_greedy epsilon top_action pdf).2) ∧
    (∀ (E : ℚ → ℚ) (lambda : ℚ) (scores pdf : List ℚ),
      (∀ x, 0 < E x) → scores ≠ [] → scores.length = pdf.length →
      pdf_invariants pdf (generate_softmax E lambda scores pdf).2) ∧
    (∀ (votes : List ℕ) (pdf : List ℚ),
      votes.length = pdf.length → 0 < pdf.length →
      pdf_invariants pdf (generate_bag votes pdf).2) ∧
    (∀ (m : ℚ) (u : Bool) (pdf : List ℚ),
      (∀ p ∈ pdf, 0 ≤ p) → pdf.sum = 1 → 0 < m → m ≤ 999/1000 →
      pdf_invariants pdf (enforce_minimum_probability m u pdf).2) := by
  refine ⟨?_, ?_, ?_, ?_⟩
  · intro epsilon top_action pdf h0 h1 hN
    have hNQ : (0:ℚ) < (pdf.length : ℚ) := by exact_mod_cast hN
    refine ⟨?_, eps_sum_one epsilon top_action pdf hN,
      eps_length epsilon top_action pdf hN⟩
    intro q hq
    rcases eps_mem epsilon top_action pdf hN q hq with h | h <;> rw [h]
    · positivity
    · have h2 : 0 ≤ epsilon / (pdf.length : ℚ) := by positivity
      linarith
  · intro E lambda scores pdf hEpos hne hlen
    exact ⟨softmax_nonneg E lambda scores pdf hEpos hne hlen,
      softmax_sum_one E lambda scores pdf hEpos hne hlen,
      softmax_length E lambda scores pdf hne hlen⟩
  · intro votes pdf hlen hN
    have hne : pdf ≠ [] := List.length_pos.mp hN
    by_cases hz : votes.sum = 0
    · rw [bag_eq_zero_case votes pdf hne hz]
      refine ⟨?_, ?_, ?_⟩
      · intro q hq
        rcases List.mem_cons.mp hq with h | h
        · rw [h]
          norm_num
        · rw [List.eq_of_mem_replicate h]
      · simp [List.sum_replicate]
      · simp only [List.length_cons, List.length_replicate]
        omega
    · rw [bag_eq_pos_case votes pdf hne hz]
      refine ⟨bag_fill_nonneg_eqlen votes pdf votes.sum hlen, ?_,
        bag_fill_length votes pdf votes.sum⟩
      rw [bag_fill_sum votes pdf votes.sum hlen]
      exact div_self (by exact_mod_cast hz)
  · intro m u pdf hnn hsum hm0 hm1
    obtain ⟨_, h2, h3, h4, _⟩ := enforce_general_facts m u pdf hnn hsum hm0 hm1
    exact ⟨h4, h3, h2⟩

/-- Witness for the amended C4 at a concrete epsilon-greedy call. -/
theorem C4_witness :
    pdf_invariants [0, 0] (generate_epsilon_greedy (1/2) 0 [0, 0]).2 :=
  C4_amended_invariants.1 (1/2) 0 [0, 0] (by norm_num) (by norm_num)
    (by norm_num)
